import Mathlib

/-!
Verification development for the Altilium-db server.

Shallow embedding of the parts of the code that the verified properties
are about:

* `src/resp.rs` — the RESP wire codec (`parse_resp`, `serialize_resp`),
  built from nom `complete` combinators (`tag`, `is_not`, `crlf`,
  `character::complete::i64`, `take`, `count`, `alt`, `preceded`,
  `terminated`).
* `src/store.rs` — the store (`data`/`metadata` maps), the engine
  consumer loop body of `Store::process_commands`, `Store::get`,
  `Store::hset` (validation plus event publication), and
  `Store::clean_expired`.
* `src/main.rs` — `process_command` (command dispatch).

Modelling conventions:

* Bytes are `Nat` (values below 256 in the real program).  A Rust
  `String` is modelled as the list of its UTF-8 bytes (`List Nat`);
  `String::from_utf8` is modelled with an executable UTF-8 validator,
  and `String::from_utf8_lossy` as the identity on the byte content
  (exact whenever the content is valid UTF-8, which is the case for all
  bytes produced by serializing a Rust `String`).
* `char::to_uppercase` is modelled on the ASCII range (the only range
  relevant to the command and option keywords compared against).
* `HashMap` is modelled as an association list with insert-or-replace,
  lookup-first and remove-all operations; the real `HashMap` keeps keys
  unique, which surfaces as `Nodup` hypotheses where a theorem needs it.
* `SystemTime` and `Duration` are modelled as `Nat` milliseconds;
  `SystemTime::now() + duration` becomes `now + duration`.
* Machine integers: the RESP integer parser checks the `i64` range
  exactly as nom's checked `i64` parser does; the `as usize` casts in
  `parse_bulk_string` / `parse_array` are modelled as `% 2^64`.
-/

/-! ## Byte-string helpers -/

/-- Bytes of an ASCII string literal (used for the protocol keywords and
error messages appearing in the source, all of which are ASCII except
where noted). -/
def strBytes (s : String) : List Nat := s.data.map Char.toNat

/-- ASCII decimal digit test, as used by nom's integer parser and by
Rust's `u64::from_str`. -/
def isDigit (b : Nat) : Bool := 48 ≤ b && b ≤ 57

/-- ASCII uppercase map, modelling `str::to_uppercase` on the ASCII
range (the command keywords compared against are all ASCII). -/
def upperAscii (s : List Nat) : List Nat :=
  s.map (fun b => if 97 ≤ b ∧ b ≤ 122 then b - 32 else b)

/-- UTF-8 continuation byte test. -/
def utf8Cont (b : Nat) : Bool := 128 ≤ b && b ≤ 191

/-- Executable UTF-8 validity check over a byte list, modelling the
success condition of Rust's `String::from_utf8`. -/
def validUtf8 : List Nat → Bool
  | [] => true
  | b :: r =>
    if b ≤ 127 then validUtf8 r
    else if 194 ≤ b && b ≤ 223 then
      match r with
      | c :: r2 => utf8Cont c && validUtf8 r2
      | [] => false
    else if b = 224 then
      match r with
      | c :: d :: r2 => (160 ≤ c && c ≤ 191) && utf8Cont d && validUtf8 r2
      | _ => false
    else if 225 ≤ b && b ≤ 236 then
      match r with
      | c :: d :: r2 => utf8Cont c && utf8Cont d && validUtf8 r2
      | _ => false
    else if b = 237 then
      match r with
      | c :: d :: r2 => (128 ≤ c && c ≤ 159) && utf8Cont d && validUtf8 r2
      | _ => false
    else if 238 ≤ b && b ≤ 239 then
      match r with
      | c :: d :: r2 => utf8Cont c && utf8Cont d && validUtf8 r2
      | _ => false
    else if b = 240 then
      match r with
      | c :: d :: e :: r2 => (144 ≤ c && c ≤ 191) && utf8Cont d && utf8Cont e && validUtf8 r2
      | _ => false
    else if 241 ≤ b && b ≤ 243 then
      match r with
      | c :: d :: e :: r2 => utf8Cont c && utf8Cont d && utf8Cont e && validUtf8 r2
      | _ => false
    else if b = 244 then
      match r with
      | c :: d :: e :: r2 => (128 ≤ c && c ≤ 143) && utf8Cont d && utf8Cont e && validUtf8 r2
      | _ => false
    else false

/-- Decimal digits (ASCII bytes, most significant first) of a natural
number, fuelled so that the definition is structurally recursive and
evaluates in the kernel.  `natDigits` below supplies sufficient fuel. -/
def natDigitsF : Nat → Nat → List Nat
  | 0, _ => []
  | fuel + 1, n => if n < 10 then [48 + n] else natDigitsF fuel (n / 10) ++ [48 + n % 10]

/-- Decimal ASCII representation of a natural number, modelling
`format!("{}", n)`. -/
def natDigits (n : Nat) : List Nat := natDigitsF (n + 1) n

/-- Longest digit prefix of a byte list together with the rest,
modelling nom's `digit1`-style greedy digit consumption inside its
integer parser. -/
def takeDigits : List Nat → List Nat × List Nat
  | [] => ([], [])
  | b :: r =>
    if isDigit b then
      let p := takeDigits r
      (b :: p.1, p.2)
    else ([], b :: r)

/-- Numeric value of a list of ASCII digit bytes. -/
def digitsVal (ds : List Nat) : Nat := ds.foldl (fun acc d => acc * 10 + (d - 48)) 0

/-- Rust `str::parse::<u64>()`: optional leading `+`, one or more
digits, nothing else, result within the `u64` range. -/
def parseU64 (s : List Nat) : Option Nat :=
  let s2 := match s with
    | 43 :: r => r
    | _ => s
  if s2 ≠ [] ∧ s2.all isDigit then
    if digitsVal s2 < 2 ^ 64 then some (digitsVal s2) else none
  else none

/-! ## RESP frames (`src/resp.rs`, enum `RespValue`) -/

/-- Mirror of `enum RespValue`.  String payloads are UTF-8 byte lists. -/
inductive RespValue where
  | SimpleString : List Nat → RespValue
  | Error : List Nat → RespValue
  | Integer : Int → RespValue
  | BulkString : List Nat → RespValue
  | Array : List RespValue → RespValue
  | Null : RespValue

/-- Mirror of nom's `IResult`: success with remaining input, recoverable
failure (`Err::Error` / `Err::Failure`, "malformed"), or
`Err::Incomplete` ("need more bytes").  The parsers of `src/resp.rs` are
built exclusively from `complete` combinators, which never produce
`Err::Incomplete`; the constructor exists because the connection loop in
`src/main.rs` pattern-matches on it. -/
inductive PResult (α : Type) where
  | ok : List Nat → α → PResult α
  | err : PResult α
  | incomplete : PResult α

/-- nom `alt` fallthrough: try the next branch on a recoverable error. -/
def PResult.orElse (a : PResult α) (b : Unit → PResult α) : PResult α :=
  match a with
  | PResult.err => b ()
  | x => x

/-- Longest prefix free of CR and LF plus the rest, the core of nom's
complete `is_not("\r\n")` (which additionally fails when the prefix is
empty). -/
def spanNotCRLF : List Nat → List Nat × List Nat
  | [] => ([], [])
  | b :: r =>
    if b = 13 ∨ b = 10 then ([], b :: r)
    else
      let p := spanNotCRLF r
      (b :: p.1, p.2)

/-- nom `character::complete::crlf`: recognizes exactly `\r\n`;
anything else (including a shorter input) is a recoverable error. -/
def crlfP (input : List Nat) : PResult Unit :=
  match input with
  | a :: b :: rest => if a = 13 ∧ b = 10 then PResult.ok rest () else PResult.err
  | _ => PResult.err

/-- nom `bytes::complete::take(n)`: the first `n` bytes, failing when
fewer are available. -/
def takeP (n : Nat) (input : List Nat) : PResult (List Nat) :=
  if n ≤ input.length then PResult.ok (input.drop n) (input.take n) else PResult.err

/-- Digit run of nom's checked `i64` parser after an absent or `+`
sign: at least one digit, value at most `i64::MAX`. -/
def i64Pos (r : List Nat) : PResult Int :=
  let p := takeDigits r
  if p.1 = [] then PResult.err
  else if digitsVal p.1 ≤ 2 ^ 63 - 1 then PResult.ok p.2 ((digitsVal p.1 : Nat) : Int)
  else PResult.err

/-- Digit run of nom's checked `i64` parser after a `-` sign: at least
one digit, magnitude at most `2^63`. -/
def i64Neg (r : List Nat) : PResult Int :=
  let p := takeDigits r
  if p.1 = [] then PResult.err
  else if digitsVal p.1 ≤ 2 ^ 63 then PResult.ok p.2 (-((digitsVal p.1 : Nat) : Int))
  else PResult.err

/-- nom `character::complete::i64`: optional sign, one or more digits,
checked accumulation into the `i64` range. -/
def i64P (input : List Nat) : PResult Int :=
  match input with
  | [] => PResult.err
  | b :: r =>
    if b = 45 then i64Neg r
    else if b = 43 then i64Pos r
    else i64Pos (b :: r)

/-- Mirror of `parse_simple_string`:
`preceded(tag("+"), terminated(is_not("\r\n"), crlf))`, with
`from_utf8_lossy` modelled as the identity on the matched bytes. -/
def parse_simple_string (input : List Nat) : PResult RespValue :=
  match input with
  | [] => PResult.err
  | b :: r =>
    if b = 43 then
      let p := spanNotCRLF r
      if p.1 = [] then PResult.err
      else
        match crlfP p.2 with
        | PResult.ok rest _ => PResult.ok rest (RespValue.SimpleString p.1)
        | PResult.err => PResult.err
        | PResult.incomplete => PResult.incomplete
    else PResult.err

/-- Mirror of `parse_error`:
`preceded(tag("-"), terminated(is_not("\r\n"), crlf))`. -/
def parse_error (input : List Nat) : PResult RespValue :=
  match input with
  | [] => PResult.err
  | b :: r =>
    if b = 45 then
      let p := spanNotCRLF r
      if p.1 = [] then PResult.err
      else
        match crlfP p.2 with
        | PResult.ok rest _ => PResult.ok rest (RespValue.Error p.1)
        | PResult.err => PResult.err
        | PResult.incomplete => PResult.incomplete
    else PResult.err

/-- Mirror of `parse_integer`:
`preceded(tag(":"), terminated(i64, crlf))`. -/
def parse_integer (input : List Nat) : PResult RespValue :=
  match input with
  | [] => PResult.err
  | b :: r =>
    if b = 58 then
      match i64P r with
      | PResult.ok rest1 number =>
        match crlfP rest1 with
        | PResult.ok rest2 _ => PResult.ok rest2 (RespValue.Integer number)
        | PResult.err => PResult.err
        | PResult.incomplete => PResult.incomplete
      | PResult.err => PResult.err
      | PResult.incomplete => PResult.incomplete
    else PResult.err

/-- Mirror of `parse_bulk_string`: `$`, signed length, CRLF; `-1`
denotes `Null`; otherwise `take(len as usize)` then CRLF.  The
`as usize` cast is modelled as `% 2^64`. -/
def parse_bulk_string (input : List Nat) : PResult RespValue :=
  match input with
  | [] => PResult.err
  | b :: r =>
    if b = 36 then
      match i64P r with
      | PResult.ok rest1 len =>
        match crlfP rest1 with
        | PResult.ok rest2 _ =>
          if len = -1 then PResult.ok rest2 RespValue.Null
          else
            match takeP (len % (2 ^ 64 : Int)).toNat rest2 with
            | PResult.ok rest3 data =>
              match crlfP rest3 with
              | PResult.ok rest4 _ => PResult.ok rest4 (RespValue.BulkString data)
              | PResult.err => PResult.err
              | PResult.incomplete => PResult.incomplete
            | PResult.err => PResult.err
            | PResult.incomplete => PResult.incomplete
        | PResult.err => PResult.err
        | PResult.incomplete => PResult.incomplete
      | PResult.err => PResult.err
      | PResult.incomplete => PResult.incomplete
    else PResult.err

/-- nom `multi::count`: run the element parser exactly `n` times,
propagating its failures. -/
def countF (p : List Nat → PResult RespValue) : Nat → List Nat → PResult (List RespValue)
  | 0, input => PResult.ok input []
  | n + 1, input =>
    match p input with
    | PResult.ok rest v =>
      match countF p n rest with
      | PResult.ok rest2 vs => PResult.ok rest2 (v :: vs)
      | PResult.err => PResult.err
      | PResult.incomplete => PResult.incomplete
    | PResult.err => PResult.err
    | PResult.incomplete => PResult.incomplete

/-- Mirror of `parse_array` with the element parser abstracted: `*`,
signed count, CRLF; `-1` denotes `Null`; otherwise
`count(parse_resp, len as usize)`. -/
def parse_array_with (p : List Nat → PResult RespValue) (input : List Nat) : PResult RespValue :=
  match input with
  | [] => PResult.err
  | b :: r =>
    if b = 42 then
      match i64P r with
      | PResult.ok rest1 len =>
        match crlfP rest1 with
        | PResult.ok rest2 _ =>
          if len = -1 then PResult.ok rest2 RespValue.Null
          else
            match countF p (len % (2 ^ 64 : Int)).toNat rest2 with
            | PResult.ok rest3 elements => PResult.ok rest3 (RespValue.Array elements)
            | PResult.err => PResult.err
            | PResult.incomplete => PResult.incomplete
        | PResult.err => PResult.err
        | PResult.incomplete => PResult.incomplete
      | PResult.err => PResult.err
      | PResult.incomplete => PResult.incomplete
    else PResult.err

/-- Fuelled mirror of `parse_resp`: `alt` over the five frame parsers,
trying each in source order.  The fuel only bounds the recursion into
array elements; `parse_resp` below supplies fuel that is never
exhausted on its input (each recursion step consumes a multi-byte array
header first). -/
def parseRespF : Nat → List Nat → PResult RespValue
  | 0, _ => PResult.err
  | fuel + 1, input =>
    (parse_simple_string input).orElse fun _ =>
      (parse_error input).orElse fun _ =>
        (parse_integer input).orElse fun _ =>
          (parse_bulk_string input).orElse fun _ =>
            parse_array_with (parseRespF fuel) input

/-- Mirror of `parse_resp`. -/
def parse_resp (input : List Nat) : PResult RespValue :=
  parseRespF (input.length + 1) input

/-- Rendering of an `i64` value by `format!("{}", i)`. -/
def serializeInt (i : Int) : List Nat :=
  if i < 0 then 45 :: natDigits i.natAbs else natDigits i.toNat

mutual

/-- Mirror of `serialize_resp`. -/
def serialize_resp : RespValue → List Nat
  | RespValue.SimpleString s => 43 :: (s ++ [13, 10])
  | RespValue.Error s => 45 :: (s ++ [13, 10])
  | RespValue.Integer i => 58 :: (serializeInt i ++ [13, 10])
  | RespValue.BulkString bytes => 36 :: (natDigits bytes.length ++ [13, 10] ++ bytes ++ [13, 10])
  | RespValue.Array arr => 42 :: (natDigits arr.length ++ [13, 10] ++ serializeList arr)
  | RespValue.Null => [36, 45, 49, 13, 10]

/-- Concatenation of the serializations of the elements of an array
(the `for val in arr { result.extend(serialize_resp(val)) }` loop). -/
def serializeList : List RespValue → List Nat
  | [] => []
  | v :: vs => serialize_resp v ++ serializeList vs

end

/-- Mirror of `RespValue::to_string`: `BulkString` through
`String::from_utf8` (failing on invalid UTF-8), `SimpleString`
directly, everything else an error. -/
def RespValue.to_string : RespValue → Option (List Nat)
  | RespValue.BulkString bytes => if validUtf8 bytes then some bytes else none
  | RespValue.SimpleString s => some s
  | _ => none

mutual

/-- Representability and well-formedness of a frame value: integers in
the `i64` range, byte payloads made of bytes, string payloads valid
UTF-8 (they are Rust `String`s) that are nonempty and CR/LF-free, and
lengths within `i64` (they are Rust vector lengths). -/
def wfB : RespValue → Bool
  | RespValue.SimpleString s =>
    decide (s ≠ []) && validUtf8 s && s.all (fun b => decide (b ≠ 13) && decide (b ≠ 10))
  | RespValue.Error s =>
    decide (s ≠ []) && validUtf8 s && s.all (fun b => decide (b ≠ 13) && decide (b ≠ 10))
  | RespValue.Integer i => decide (-(2 ^ 63) ≤ i) && decide (i < 2 ^ 63)
  | RespValue.BulkString bytes => bytes.all (fun b => decide (b < 256)) && decide (bytes.length < 2 ^ 63)
  | RespValue.Array arr => wfListB arr && decide (arr.length < 2 ^ 63)
  | RespValue.Null => true

/-- Conjunction of `wfB` over the elements of an array. -/
def wfListB : List RespValue → Bool
  | [] => true
  | v :: vs => wfB v && wfListB vs

end

mutual

/-- Nesting depth of a frame (array nesting), used to bound the parser
fuel. -/
def depth : RespValue → Nat
  | RespValue.Array arr => depthList arr + 1
  | _ => 1

/-- Maximum depth over the elements of an array. -/
def depthList : List RespValue → Nat
  | [] => 0
  | v :: vs => max (depth v) (depthList vs)

end

/-! ## Store (`src/store.rs`, `src/data_types.rs`) -/

/-- Lookup in an association-list model of `HashMap` (first matching
entry; the real map keeps keys unique). -/
def alookup {V : Type} : List (List Nat × V) → List Nat → Option V
  | [], _ => none
  | (k2, v) :: rest, k => if k2 = k then some v else alookup rest k

/-- Mirror of `HashMap::insert`: replace the entry in place, or append. -/
def ainsert {V : Type} : List (List Nat × V) → List Nat → V → List (List Nat × V)
  | [], k, v => [(k, v)]
  | (k2, v2) :: rest, k, v =>
    if k2 = k then (k, v) :: rest else (k2, v2) :: ainsert rest k v

/-- Mirror of `HashMap::remove`: drop every entry with the key (at most
one in a real map). -/
def aremove {V : Type} : List (List Nat × V) → List Nat → List (List Nat × V)
  | [], _ => []
  | (k2, v2) :: rest, k =>
    if k2 = k then aremove rest k else (k2, v2) :: aremove rest k

/-- Mirror of `enum Value` (`src/data_types.rs`). -/
inductive Value where
  | String : List Nat → Value
  | List : List (List Nat) → Value
  | Set : List (List Nat) → Value
  | Hash : List (List Nat × List Nat) → Value

/-- Mirror of `struct KeyMetadata`: optional absolute expiry instant
(milliseconds). -/
structure KeyMetadata where
  expiry : Option Nat

/-- Mirror of `enum Command`, the mutation events of the event bus.
`Set`'s expiry is the optional `Duration` in milliseconds. -/
inductive Command where
  | Set : List Nat → Value → Option Nat → Command
  | HSet : List Nat → List Nat → List Nat → Command
  | Delete : List Nat → Command

/-- The two canonical mappings of `struct Store`. -/
structure Store where
  data : List (List Nat × Value)
  metadata : List (List Nat × KeyMetadata)

/-- The store created by `Store::new` before any event. -/
def emptyStore : Store := { data := [], metadata := [] }

/-- One iteration of the engine consumer loop in
`Store::process_commands`, applying a single received mutation event at
instant `now`. -/
def Store.applyCommand (now : Nat) (s : Store) (cmd : Command) : Store :=
  match cmd with
  | Command.Set key value expiry =>
    let data2 := ainsert s.data key value
    match expiry with
    | some duration =>
      { data := data2,
        metadata := ainsert s.metadata key { expiry := some (now + duration) } }
    | none => { data := data2, metadata := aremove s.metadata key }
  | Command.HSet key field value =>
    match alookup s.data key with
    | none => { s with data := ainsert s.data key (Value.Hash (ainsert [] field value)) }
    | some (Value.Hash h) => { s with data := ainsert s.data key (Value.Hash (ainsert h field value)) }
    | some _ => s
  | Command.Delete key =>
    { data := aremove s.data key, metadata := aremove s.metadata key }

/-- The engine consumer draining a list of published events in publish
order, each timestamped with its application instant. -/
def Store.applyEvents (s : Store) (evs : List (Nat × Command)) : Store :=
  evs.foldl (fun st tc => Store.applyCommand tc.1 st tc.2) s

/-- Mirror of `Store::get`: a direct read of the `data` mapping. -/
def Store.get (s : Store) (key : List Nat) : Option Value :=
  alookup s.data key

/-- The `WRONGTYPE` message of `Store::hset` and of the `GET` branch of
`process_command`. -/
def wrongTypeMsg : List Nat :=
  strBytes "WRONGTYPE Operation against a key holding the wrong kind of value"

/-- Mirror of `Store::hset`: validate against a momentary read of
`data` (`created` flag; wrong-type error before anything is sent), then
publish the `HSet` event.  The second component lists the events the
call publishes on the bus. -/
def Store.hset (s : Store) (key field value : List Nat) :
    Except (List Nat) Int × List Command :=
  match alookup s.data key with
  | some (Value.Hash h) =>
    if (alookup h field).isSome then (Except.ok 0, [Command.HSet key field value])
    else (Except.ok 1, [Command.HSet key field value])
  | some _ => (Except.error wrongTypeMsg, [])
  | none => (Except.ok 1, [Command.HSet key field value])

/-- Keys collected by the scan phase of `Store::clean_expired`: those
whose recorded expiry instant is at or before `now`. -/
def expiredKeys (now : Nat) : List (List Nat × KeyMetadata) → List (List Nat)
  | [] => []
  | (k, m) :: rest =>
    match m.expiry with
    | some t => if t ≤ now then k :: expiredKeys now rest else expiredKeys now rest
    | none => expiredKeys now rest

/-- Mirror of `Store::clean_expired`: scan the metadata, then remove
every collected key from both mappings in one batched pass (skipped
when nothing expired). -/
def Store.clean_expired (now : Nat) (s : Store) : Store :=
  let ks := expiredKeys now s.metadata
  if ks = [] then s
  else { data := ks.foldl aremove s.data, metadata := ks.foldl aremove s.metadata }

/-! ## Command dispatch (`src/main.rs`, `process_command`) -/

/-- Mirror of `to_string().unwrap_or_default()`. -/
def toStrD (v : RespValue) : List Nat :=
  match v.to_string with
  | some s => s
  | none => []

/-- The `ERR wrong number of arguments for '<cmd>'` message. -/
def arityMsg (cmd : String) : List Nat :=
  strBytes "ERR wrong number of arguments for " ++ [39] ++ strBytes cmd ++ [39]

/-- The (Portuguese) `KEYS` syntax error message of the source; 233 is
U+00E9 as the two UTF-8 bytes 195, 169, and 39 is the apostrophe. -/
def keysErrMsg : List Nat :=
  strBytes "ERR a sintaxe suportada " ++ [195, 169, 32, 39] ++ strBytes "KEYS *" ++ [39]

/-- Expiry extraction of the `SET` branch: positional scan of the
tokens after the value.  `PX <millis>` or `EX <secs>` (uppercased
comparison) with a parseable `u64` yields a duration in milliseconds;
every failure along the way is silently ignored (no `else` arms in the
source), leaving no expiry. -/
def setExpiryOf (args : List RespValue) : Option Nat :=
  match args with
  | [] => none
  | optF :: rest =>
    match optF.to_string with
    | none => none
    | some opt =>
      if upperAscii opt = strBytes "PX" then
        match rest with
        | [] => none
        | msF :: _ =>
          match msF.to_string with
          | none => none
          | some msStr =>
            match parseU64 msStr with
            | some millis => some millis
            | none => none
      else if upperAscii opt = strBytes "EX" then
        match rest with
        | [] => none
        | sF :: _ =>
          match sF.to_string with
          | none => none
          | some sStr =>
            match parseU64 sStr with
            | some secs => some (secs * 1000)
            | none => none
      else none

/-- The `DEL` loop: for each argument that converts to a string and
exists in `data`, publish a `Delete` event and count it.  Every
existence check reads the same momentary state — the engine applies the
published events asynchronously. -/
def delLoop (s : Store) (args : List RespValue) : Int × List Command :=
  args.foldl
    (fun acc arg =>
      match arg.to_string with
      | some key =>
        if (alookup s.data key).isSome then (acc.1 + 1, acc.2 ++ [Command.Delete key])
        else acc
      | none => acc)
    (0, [])

/-- Mirror of `process_command` (`src/main.rs`): interpret one decoded
frame against a momentary read of the store.  Returns the reply frame,
the new per-connection `authenticated` flag, and the list of mutation
events the call publishes on the bus (the dispatch layer never writes
the mappings itself). -/
def process_command (cmd : RespValue) (store : Store) (authenticated : Bool)
    (password : Option (List Nat)) : RespValue × Bool × List Command :=
  match cmd with
  | RespValue.Array args0 =>
    match args0 with
    | [] => (RespValue.Error (strBytes "ERR empty command"), authenticated, [])
    | nameF :: args =>
      match nameF.to_string with
      | none => (RespValue.Error (strBytes "ERR invalid command name"), authenticated, [])
      | some rawName =>
        let command_name := upperAscii rawName
        if authenticated = false ∧ command_name ≠ strBytes "AUTH" then
          (RespValue.Error (strBytes "NOAUTH Authentication required."), authenticated, [])
        else if command_name = strBytes "AUTH" then
          match password with
          | some pass =>
            match args with
            | [a] =>
              if toStrD a = pass then (RespValue.SimpleString (strBytes "OK"), true, [])
              else (RespValue.Error (strBytes "ERR invalid password"), authenticated, [])
            | _ => (RespValue.Error (strBytes "ERR invalid password"), authenticated, [])
          | none => (RespValue.Error (strBytes "ERR AUTH is not needed"), authenticated, [])
        else if command_name = strBytes "PING" then
          match args with
          | [] => (RespValue.SimpleString (strBytes "PONG"), authenticated, [])
          | a :: _ =>
            match a.to_string with
            | some msg => (RespValue.BulkString msg, authenticated, [])
            | none => (RespValue.SimpleString (strBytes "PONG"), authenticated, [])
        else if command_name = strBytes "GET" then
          match args with
          | [a] =>
            match a.to_string with
            | none => (RespValue.Error (strBytes "ERR invalid key"), authenticated, [])
            | some key =>
              match Store.get store key with
              | some (Value.String s) => (RespValue.BulkString s, authenticated, [])
              | some _ => (RespValue.Error wrongTypeMsg, authenticated, [])
              | none => (RespValue.Null, authenticated, [])
          | _ => (RespValue.Error (arityMsg "GET"), authenticated, [])
        else if command_name = strBytes "SET" then
          match args with
          | keyF :: valF :: extra =>
            match keyF.to_string with
            | none => (RespValue.Error (strBytes "ERR invalid key"), authenticated, [])
            | some key =>
              match valF.to_string with
              | none => (RespValue.Error (strBytes "ERR invalid value"), authenticated, [])
              | some value =>
                (RespValue.SimpleString (strBytes "OK"), authenticated,
                  [Command.Set key (Value.String value) (setExpiryOf extra)])
          | _ => (RespValue.Error (arityMsg "SET"), authenticated, [])
        else if command_name = strBytes "KEYS" then
          match args with
          | [a] =>
            if toStrD a = strBytes "*" then
              (RespValue.Array (store.data.map fun kv => RespValue.BulkString kv.1),
                authenticated, [])
            else (RespValue.Error keysErrMsg, authenticated, [])
          | _ => (RespValue.Error keysErrMsg, authenticated, [])
        else if command_name = strBytes "HSET" then
          match args with
          | [kF, fF, vF] =>
            match kF.to_string with
            | none => (RespValue.Error (strBytes "ERR invalid key"), authenticated, [])
            | some key =>
              match fF.to_string with
              | none => (RespValue.Error (strBytes "ERR invalid field"), authenticated, [])
              | some field =>
                match vF.to_string with
                | none => (RespValue.Error (strBytes "ERR invalid value"), authenticated, [])
                | some value =>
                  match Store.hset store key field value with
                  | (Except.ok i, evs) => (RespValue.Integer i, authenticated, evs)
                  | (Except.error e, evs) => (RespValue.Error e, authenticated, evs)
          | _ => (RespValue.Error (arityMsg "HSET"), authenticated, [])
        else if command_name = strBytes "DEL" then
          match args with
          | [] => (RespValue.Error (arityMsg "DEL"), authenticated, [])
          | _ =>
            let r := delLoop store args
            (RespValue.Integer r.1, authenticated, r.2)
        else
          (RespValue.Error (strBytes "ERR unknown command " ++ [39] ++ command_name ++ [39]),
            authenticated, [])
  | _ => (RespValue.Error (strBytes "ERR command must be an array"), authenticated, [])

/-! ## Claim-side predicates and sample data -/

/-- A concrete store whose single key expired at instant 5. -/
def sampleExpired : Store :=
  { data := [(strBytes "k", Value.String (strBytes "v"))],
    metadata := [(strBytes "k", { expiry := some 5 })] }

/-- A concrete two-key store: `a` expired at 5, `b` expires at 20. -/
def sampleTwoKeys : Store :=
  { data := [(strBytes "a", Value.String (strBytes "x")),
             (strBytes "b", Value.String (strBytes "y"))],
    metadata := [(strBytes "a", { expiry := some 5 }),
                 (strBytes "b", { expiry := some 20 })] }

/-- The metadata-implies-data invariant of C9. -/
def storeInv (s : Store) : Prop :=
  ∀ k, (alookup s.metadata k).isSome = true → (alookup s.data k).isSome = true

/-- The key a mutation event touches. -/
def Command.keyOf : Command → List Nat
  | Command.Set k _ _ => k
  | Command.HSet k _ _ => k
  | Command.Delete k => k

/-- Three concurrently published events, two of them on key `a`. -/
def sampleEvents : List (Nat × Command) :=
  [(1, Command.Set (strBytes "a") (Value.String (strBytes "1")) none),
   (2, Command.Set (strBytes "b") (Value.String (strBytes "2")) none),
   (3, Command.Set (strBytes "a") (Value.String (strBytes "3")) none)]

/-- Transcription of C10's hypothesis on the tokens after `SET key
value`: the next token is absent, not a string, neither `PX` nor `EX`
(case-insensitively), or is `PX`/`EX` whose following token is absent,
not a string, or not a parseable unsigned integer. -/
def trailingIgnoredB (extra : List RespValue) : Bool :=
  match extra with
  | [] => true
  | t :: rest =>
    match t.to_string with
    | none => true
    | some s =>
      if upperAscii s = strBytes "PX" ∨ upperAscii s = strBytes "EX" then
        match rest with
        | [] => true
        | u :: _ =>
          match u.to_string with
          | none => true
          | some d => (parseU64 d).isNone
      else true

/-- The condition under which greedy digit consumption stops exactly at
the start of the remaining input. -/
def headNotDigit : List Nat → Prop
  | [] => True
  | b :: _ => isDigit b = false

/-- A representable frame exercising all five kinds with nesting. -/
def sampleFrame : RespValue :=
  RespValue.Array
    [RespValue.SimpleString (strBytes "OK"),
     RespValue.Error (strBytes "ERR oops"),
     RespValue.Integer (-42),
     RespValue.BulkString [0, 255, 13, 10],
     RespValue.Array [RespValue.Null, RespValue.Integer 7]]

/-! ## Association-list lemmas -/

theorem alookup_ainsert_self {V : Type} (l : List (List Nat × V)) (k : List Nat) (v : V) :
    alookup (ainsert l k v) k = some v := by
  induction l with
  | nil => simp [ainsert, alookup]
  | cons hd tl ih =>
    obtain ⟨k2, v2⟩ := hd
    by_cases h : k2 = k
    · simp [ainsert, h, alookup]
    · simp [ainsert, h, alookup, ih]

theorem alookup_ainsert_ne {V : Type} (l : List (List Nat × V)) (k k2 : List Nat) (v : V)
    (h : k2 ≠ k) : alookup (ainsert l k v) k2 = alookup l k2 := by
  induction l with
  | nil => simp [ainsert, alookup, Ne.symm h]
  | cons hd tl ih =>
    obtain ⟨k3, v3⟩ := hd
    by_cases h3 : k3 = k
    · simp [ainsert, alookup, h3, Ne.symm h]
    · simp [ainsert, alookup, h3, ih]

theorem alookup_aremove_self {V : Type} (l : List (List Nat × V)) (k : List Nat) :
    alookup (aremove l k) k = none := by
  induction l with
  | nil => rfl
  | cons hd tl ih =>
    obtain ⟨k2, v2⟩ := hd
    by_cases h : k2 = k
    · simp [aremove, h, ih]
    · simp [aremove, h, alookup, ih]

theorem alookup_aremove_ne {V : Type} (l : List (List Nat × V)) (k k2 : List Nat)
    (h : k2 ≠ k) : alookup (aremove l k) k2 = alookup l k2 := by
  induction l with
  | nil => rfl
  | cons hd tl ih =>
    obtain ⟨k3, v3⟩ := hd
    by_cases h3 : k3 = k
    · simp [aremove, alookup, h3, Ne.symm h, ih]
    · simp [aremove, alookup, h3, ih]

theorem alookup_foldl_aremove_of_not_mem {V : Type} (ks : List (List Nat))
    (d : List (List Nat × V)) (k : List Nat) (h : k ∉ ks) :
    alookup (ks.foldl aremove d) k = alookup d k := by
  induction ks generalizing d with
  | nil => rfl
  | cons a ks ih =>
    simp only [List.mem_cons, not_or] at h
    rw [List.foldl_cons, ih _ h.2, alookup_aremove_ne _ _ _ h.1]

theorem alookup_foldl_aremove_of_mem {V : Type} (ks : List (List Nat))
    (d : List (List Nat × V)) (k : List Nat) (h : k ∈ ks) :
    alookup (ks.foldl aremove d) k = none := by
  induction ks generalizing d with
  | nil => cases h
  | cons a ks ih =>
    by_cases hk : k ∈ ks
    · rw [List.foldl_cons]
      exact ih _ hk
    · have ha : k = a := by
        rcases List.mem_cons.mp h with h1 | h2
        · exact h1
        · exact absurd h2 hk
      rw [List.foldl_cons, alookup_foldl_aremove_of_not_mem _ _ _ hk, ha,
        alookup_aremove_self]

theorem mem_map_fst_of_alookup_eq_some {V : Type} (l : List (List Nat × V))
    (k : List Nat) (v : V) (h : alookup l k = some v) : k ∈ l.map Prod.fst := by
  induction l with
  | nil => simp [alookup] at h
  | cons hd tl ih =>
    obtain ⟨k2, v2⟩ := hd
    by_cases h2 : k2 = k
    · simp [h2]
    · simp only [alookup, if_neg h2] at h
      simp [ih h]

theorem mem_expiredKeys_of_alookup (md : List (List Nat × KeyMetadata)) (k : List Nat)
    (t now : Nat) (h : alookup md k = some { expiry := some t }) (ht : t ≤ now) :
    k ∈ expiredKeys now md := by
  induction md with
  | nil => simp [alookup] at h
  | cons hd rest ih =>
    obtain ⟨k2, m⟩ := hd
    by_cases h2 : k2 = k
    · simp only [alookup, if_pos h2, Option.some.injEq] at h
      simp [expiredKeys, h, ht, h2]
    · simp only [alookup, if_neg h2] at h
      have hmem := ih h
      cases hm : m.expiry with
      | none => simpa [expiredKeys, hm] using hmem
      | some t2 =>
        by_cases hle : t2 ≤ now
        · simp [expiredKeys, hm, hle, hmem]
        · simpa [expiredKeys, hm, hle] using hmem

theorem alookup_of_mem_expiredKeys (md : List (List Nat × KeyMetadata)) (k : List Nat)
    (now : Nat) (hnd : (md.map Prod.fst).Nodup) (h : k ∈ expiredKeys now md) :
    ∃ t, alookup md k = some { expiry := some t } ∧ t ≤ now := by
  induction md with
  | nil => simp [expiredKeys] at h
  | cons hd rest ih =>
    obtain ⟨k2, m⟩ := hd
    simp only [List.map_cons, List.nodup_cons] at hnd
    have htail : k ∈ expiredKeys now rest →
        ∃ t, alookup ((k2, m) :: rest) k = some { expiry := some t } ∧ t ≤ now := by
      intro hmem
      obtain ⟨t, h1, h2⟩ := ih hnd.2 hmem
      have hne : k2 ≠ k := by
        intro he
        exact hnd.1 (he ▸ mem_map_fst_of_alookup_eq_some _ _ _ h1)
      exact ⟨t, by simp only [alookup, if_neg hne]; exact h1, h2⟩
    cases hm : m.expiry with
    | none =>
      simp only [expiredKeys, hm] at h
      exact htail h
    | some t2 =>
      simp only [expiredKeys, hm] at h
      by_cases hle : t2 ≤ now
      · rw [if_pos hle] at h
        rcases List.mem_cons.mp h with h1 | h2
        · refine ⟨t2, ?_, hle⟩
          have hm2 : m = { expiry := some t2 } := by cases m; simpa using hm
          simp [alookup, h1, hm2]
        · exact htail h2
      · rw [if_neg hle] at h
        exact htail h

/-! ## Claim theorems: store engine -/

/-- C3.  `Store::hset` classification: a missing key or a hash without
the field yields `1` (and publishes the `HSet` event); a hash that
already contains the field yields `0`; a key holding a non-hash value
yields the wrong-type error and publishes no mutation event. -/
theorem hset_result_classification (s : Store) (key field value : List Nat) :
    (alookup s.data key = none →
      Store.hset s key field value = (Except.ok 1, [Command.HSet key field value]))
    ∧ (∀ h, alookup s.data key = some (Value.Hash h) → alookup h field = none →
      Store.hset s key field value = (Except.ok 1, [Command.HSet key field value]))
    ∧ (∀ h, alookup s.data key = some (Value.Hash h) → (alookup h field).isSome = true →
      Store.hset s key field value = (Except.ok 0, [Command.HSet key field value]))
    ∧ (∀ w, alookup s.data key = some w → (∀ h, w ≠ Value.Hash h) →
      Store.hset s key field value = (Except.error wrongTypeMsg, [])) := by
  refine ⟨?_, ?_, ?_, ?_⟩
  · intro h
    simp [Store.hset, h]
  · intro hm hl hf
    simp [Store.hset, hl, hf]
  · intro hm hl hf
    simp [Store.hset, hl, hf]
  · intro w hl hw
    cases w with
    | Hash h => exact absurd rfl (hw h)
    | String x => simp [Store.hset, hl]
    | List x => simp [Store.hset, hl]
    | Set x => simp [Store.hset, hl]

/-- Witness for C3: the three outcomes at concrete stores. -/
theorem hset_result_classification_witness :
    Store.hset { data := [], metadata := [] } (strBytes "h") (strBytes "f") (strBytes "v")
        = (Except.ok 1, [Command.HSet (strBytes "h") (strBytes "f") (strBytes "v")])
    ∧ Store.hset { data := [(strBytes "h", Value.Hash [(strBytes "f", strBytes "v")])], metadata := [] }
        (strBytes "h") (strBytes "f") (strBytes "w")
        = (Except.ok 0, [Command.HSet (strBytes "h") (strBytes "f") (strBytes "w")])
    ∧ Store.hset { data := [(strBytes "h", Value.String (strBytes "x"))], metadata := [] }
        (strBytes "h") (strBytes "f") (strBytes "v")
        = (Except.error wrongTypeMsg, []) := by
  refine ⟨(hset_result_classification _ _ _ _).1 rfl, ?_, ?_⟩
  · exact (hset_result_classification _ _ _ _).2.2.1 _ rfl rfl
  · exact (hset_result_classification _ _ _ _).2.2.2 _ rfl (fun h hc => by cases hc)

/-- C4.  Applying a `Set` mutation event stores the value under the key
in `data`; with an expiry duration it records the absolute instant
`now + duration` in `metadata`; without one it removes any prior expiry
metadata for the key. -/
theorem apply_set_event_spec (now : Nat) (s : Store) (key : List Nat) (value : Value)
    (expiry : Option Nat) :
    alookup (Store.applyCommand now s (Command.Set key value expiry)).data key = some value
    ∧ (∀ d, expiry = some d →
      alookup (Store.applyCommand now s (Command.Set key value expiry)).metadata key
        = some { expiry := some (now + d) })
    ∧ (expiry = none →
      alookup (Store.applyCommand now s (Command.Set key value expiry)).metadata key = none) := by
  refine ⟨?_, ?_, ?_⟩
  · cases expiry with
    | none => simp [Store.applyCommand, alookup_ainsert_self]
    | some d => simp [Store.applyCommand, alookup_ainsert_self]
  · intro d hd
    subst hd
    simp [Store.applyCommand, alookup_ainsert_self]
  · intro hd
    subst hd
    simp [Store.applyCommand, alookup_aremove_self]

/-- Witness for C4 at a concrete store, both with and without expiry. -/
theorem apply_set_event_spec_witness :
    alookup (Store.applyCommand 7 emptyStore
        (Command.Set (strBytes "k") (Value.String (strBytes "v")) (some 50))).metadata
        (strBytes "k") = some { expiry := some 57 }
    ∧ alookup (Store.applyCommand 7
        { data := [], metadata := [(strBytes "k", { expiry := some 3 })] }
        (Command.Set (strBytes "k") (Value.String (strBytes "v")) none)).metadata
        (strBytes "k") = none := by
  refine ⟨?_, ?_⟩
  · exact (apply_set_event_spec 7 emptyStore (strBytes "k")
      (Value.String (strBytes "v")) (some 50)).2.1 50 rfl
  · exact (apply_set_event_spec 7
      { data := [], metadata := [(strBytes "k", { expiry := some 3 })] }
      (strBytes "k") (Value.String (strBytes "v")) none).2.2 rfl

/-- C5.  The read path is lazy with respect to expiry: `Store::get`
depends only on the `data` mapping (never on expiry metadata), so a key
whose expiry instant has elapsed still returns its stored value until a
sweep at or after the instant removes it, after which it reads as
absent. -/
theorem get_lazy_expiry (s : Store) (key : List Nat) (now : Nat) :
    (∀ s2 : Store, s2.data = s.data → Store.get s2 key = Store.get s key)
    ∧ (∀ v, alookup s.data key = some v → Store.get s key = some v)
    ∧ (∀ t, alookup s.metadata key = some { expiry := some t } → t ≤ now →
      Store.get (Store.clean_expired now s) key = none) := by
  refine ⟨?_, ?_, ?_⟩
  · intro s2 h
    simp [Store.get, h]
  · intro v h
    simp [Store.get, h]
  · intro t hm ht
    have hmem : key ∈ expiredKeys now s.metadata :=
      mem_expiredKeys_of_alookup _ _ _ _ hm ht
    have hne : expiredKeys now s.metadata ≠ [] := by
      intro he
      rw [he] at hmem
      cases hmem
    simp only [Store.clean_expired, if_neg hne, Store.get]
    exact alookup_foldl_aremove_of_mem _ _ _ hmem


/-- Witness for C5: an expired-but-unswept key still reads back, and is
gone after the sweep. -/
theorem get_lazy_expiry_witness :
    Store.get sampleExpired (strBytes "k") = some (Value.String (strBytes "v"))
    ∧ Store.get (Store.clean_expired 9 sampleExpired) (strBytes "k") = none := by
  refine ⟨?_, ?_⟩
  · exact (get_lazy_expiry sampleExpired (strBytes "k") 9).2.1 _ rfl
  · exact (get_lazy_expiry sampleExpired (strBytes "k") 9).2.2 5 rfl (by decide)

/-- C6.  One sweep pass removes from both mappings exactly the keys
whose recorded expiry instant is at or before the sweep's start time;
every other key keeps its value and its metadata.  (The `Nodup`
hypothesis is the key-uniqueness invariant of the real `HashMap`.) -/
theorem clean_expired_spec (now : Nat) (s : Store) (key : List Nat)
    (hnd : (s.metadata.map Prod.fst).Nodup) :
    ((∃ t, alookup s.metadata key = some { expiry := some t } ∧ t ≤ now) →
      alookup (Store.clean_expired now s).data key = none
      ∧ alookup (Store.clean_expired now s).metadata key = none)
    ∧ (¬ (∃ t, alookup s.metadata key = some { expiry := some t } ∧ t ≤ now) →
      alookup (Store.clean_expired now s).data key = alookup s.data key
      ∧ alookup (Store.clean_expired now s).metadata key = alookup s.metadata key) := by
  constructor
  · rintro ⟨t, hm, ht⟩
    have hmem : key ∈ expiredKeys now s.metadata :=
      mem_expiredKeys_of_alookup _ _ _ _ hm ht
    have hne : expiredKeys now s.metadata ≠ [] := by
      intro he
      rw [he] at hmem
      cases hmem
    simp only [Store.clean_expired, if_neg hne]
    exact ⟨alookup_foldl_aremove_of_mem _ _ _ hmem,
      alookup_foldl_aremove_of_mem _ _ _ hmem⟩
  · intro hnot
    have hmem : key ∉ expiredKeys now s.metadata := by
      intro hmem
      exact hnot (alookup_of_mem_expiredKeys _ _ _ hnd hmem)
    by_cases he : expiredKeys now s.metadata = []
    · simp [Store.clean_expired, he]
    · simp only [Store.clean_expired, if_neg he]
      exact ⟨alookup_foldl_aremove_of_not_mem _ _ _ hmem,
        alookup_foldl_aremove_of_not_mem _ _ _ hmem⟩


/-- Witness for C6: a sweep at instant 9 removes the key that expired
at 5 and keeps the key expiring at 20. -/
theorem clean_expired_spec_witness :
    alookup (Store.clean_expired 9 sampleTwoKeys).data (strBytes "a") = none
    ∧ alookup (Store.clean_expired 9 sampleTwoKeys).data (strBytes "b")
      = some (Value.String (strBytes "y")) := by
  constructor
  · exact ((clean_expired_spec 9 sampleTwoKeys (strBytes "a")
      (by decide)).1 ⟨5, rfl, by decide⟩).1
  · have := ((clean_expired_spec 9 sampleTwoKeys (strBytes "b")
      (by decide)).2 (by
        rintro ⟨t, ht, hle⟩
        have h1 : some ({ expiry := some 20 } : KeyMetadata)
            = some { expiry := some t } := ht
        injection h1 with h2
        injection h2 with h3
        injection h3 with h4
        omega)).1
    rw [this]
    rfl


/-- C9.  Starting from the empty store, every engine event application
(`Set`, `HSet`, `Delete`) and every expiration sweep preserves the
invariant that a key with expiry metadata also has a value in `data`. -/
theorem metadata_subset_data_invariant :
    storeInv emptyStore
    ∧ (∀ now cmd s, storeInv s → storeInv (Store.applyCommand now s cmd))
    ∧ (∀ now s, storeInv s → storeInv (Store.clean_expired now s)) := by
  refine ⟨?_, ?_, ?_⟩
  · intro k h
    exact absurd h (by simp [emptyStore, alookup])
  · intro now cmd s hs
    cases cmd with
    | Set key value expiry =>
      cases expiry with
      | some d =>
        intro k hk
        by_cases h : k = key
        · subst h
          simp [Store.applyCommand, alookup_ainsert_self]
        · simp only [Store.applyCommand] at hk ⊢
          rw [alookup_ainsert_ne _ _ _ _ h] at hk
          rw [alookup_ainsert_ne _ _ _ _ h]
          exact hs k hk
      | none =>
        intro k hk
        by_cases h : k = key
        · subst h
          simp only [Store.applyCommand] at hk
          rw [alookup_aremove_self] at hk
          cases hk
        · simp only [Store.applyCommand] at hk ⊢
          rw [alookup_aremove_ne _ _ _ h] at hk
          rw [alookup_ainsert_ne _ _ _ _ h]
          exact hs k hk
    | HSet key field value =>
      intro k hk
      cases hl : alookup s.data key with
      | none =>
        simp only [Store.applyCommand, hl] at hk ⊢
        by_cases h : k = key
        · subst h
          simp [alookup_ainsert_self]
        · rw [alookup_ainsert_ne _ _ _ _ h]
          exact hs k hk
      | some w =>
        cases w with
        | Hash hsh =>
          simp only [Store.applyCommand, hl] at hk ⊢
          by_cases h : k = key
          · subst h
            simp [alookup_ainsert_self]
          · rw [alookup_ainsert_ne _ _ _ _ h]
            exact hs k hk
        | String x => simp only [Store.applyCommand, hl] at hk ⊢; exact hs k hk
        | List x => simp only [Store.applyCommand, hl] at hk ⊢; exact hs k hk
        | Set x => simp only [Store.applyCommand, hl] at hk ⊢; exact hs k hk
    | Delete key =>
      intro k hk
      by_cases h : k = key
      · subst h
        simp only [Store.applyCommand] at hk
        rw [alookup_aremove_self] at hk
        cases hk
      · simp only [Store.applyCommand] at hk ⊢
        rw [alookup_aremove_ne _ _ _ h] at hk
        rw [alookup_aremove_ne _ _ _ h]
        exact hs k hk
  · intro now s hs k hk
    by_cases he : expiredKeys now s.metadata = []
    · simp only [Store.clean_expired, he, if_pos rfl] at hk ⊢
      exact hs k hk
    · simp only [Store.clean_expired, if_neg he] at hk ⊢
      by_cases hm : k ∈ expiredKeys now s.metadata
      · rw [alookup_foldl_aremove_of_mem _ _ _ hm] at hk
        cases hk
      · rw [alookup_foldl_aremove_of_not_mem _ _ _ hm] at hk
        rw [alookup_foldl_aremove_of_not_mem _ _ _ hm]
        exact hs k hk

/-- Witness for C9: the invariant transported through a concrete event
sequence from the empty store. -/
theorem metadata_subset_data_invariant_witness :
    storeInv (Store.clean_expired 3
      (Store.applyCommand 1 emptyStore
        (Command.Set (strBytes "k") (Value.String (strBytes "v")) (some 9)))) :=
  metadata_subset_data_invariant.2.2 3 _
    (metadata_subset_data_invariant.2.1 1 _ emptyStore
      metadata_subset_data_invariant.1)

/-! ## Claim theorems: event ordering (C8) -/


theorem applyEvents_cons (s : Store) (tc : Nat × Command) (l : List (Nat × Command)) :
    Store.applyEvents s (tc :: l) = Store.applyEvents (Store.applyCommand tc.1 s tc.2) l := rfl

theorem get_applyCommand_ne (now : Nat) (s : Store) (c : Command) (k : List Nat)
    (h : c.keyOf ≠ k) : Store.get (Store.applyCommand now s c) k = Store.get s k := by
  cases c with
  | Set key value expiry =>
    simp only [Command.keyOf] at h
    cases expiry with
    | none => simp [Store.applyCommand, Store.get, alookup_ainsert_ne _ _ _ _ (Ne.symm h)]
    | some d => simp [Store.applyCommand, Store.get, alookup_ainsert_ne _ _ _ _ (Ne.symm h)]
  | HSet key field value =>
    simp only [Command.keyOf] at h
    cases hl : alookup s.data key with
    | none => simp [Store.applyCommand, hl, Store.get, alookup_ainsert_ne _ _ _ _ (Ne.symm h)]
    | some w =>
      cases w with
      | Hash hsh =>
        simp [Store.applyCommand, hl, Store.get, alookup_ainsert_ne _ _ _ _ (Ne.symm h)]
      | String x => simp [Store.applyCommand, hl]
      | List x => simp [Store.applyCommand, hl]
      | Set x => simp [Store.applyCommand, hl]
  | Delete key =>
    simp only [Command.keyOf] at h
    simp [Store.applyCommand, Store.get, alookup_aremove_ne _ _ _ (Ne.symm h)]

theorem get_applyCommand_congr (now : Nat) (s1 s2 : Store) (c : Command) (k : List Nat)
    (hk : c.keyOf = k) (hg : Store.get s1 k = Store.get s2 k) :
    Store.get (Store.applyCommand now s1 c) k = Store.get (Store.applyCommand now s2 c) k := by
  cases c with
  | Set key value expiry =>
    simp only [Command.keyOf] at hk
    cases expiry with
    | none => simp [Store.applyCommand, Store.get, hk, alookup_ainsert_self]
    | some d => simp [Store.applyCommand, Store.get, hk, alookup_ainsert_self]
  | HSet key field value =>
    simp only [Command.keyOf] at hk
    subst hk
    simp only [Store.get] at hg
    cases hl : alookup s1.data key with
    | none =>
      have hl2 : alookup s2.data key = none := by rw [← hg]; exact hl
      simp [Store.applyCommand, hl, hl2, Store.get, alookup_ainsert_self]
    | some w =>
      have hl2 : alookup s2.data key = some w := by rw [← hg]; exact hl
      cases w with
      | Hash hsh => simp [Store.applyCommand, hl, hl2, Store.get, alookup_ainsert_self]
      | String x => simp [Store.applyCommand, hl, hl2, Store.get]
      | List x => simp [Store.applyCommand, hl, hl2, Store.get]
      | Set x => simp [Store.applyCommand, hl, hl2, Store.get]
  | Delete key =>
    simp only [Command.keyOf] at hk
    simp [Store.applyCommand, Store.get, hk, alookup_aremove_self]

theorem get_applyEvents_congr (k : List Nat) :
    ∀ (l : List (Nat × Command)) (s1 s2 : Store),
      (∀ tc ∈ l, (tc : Nat × Command).2.keyOf = k) →
      Store.get s1 k = Store.get s2 k →
      Store.get (Store.applyEvents s1 l) k = Store.get (Store.applyEvents s2 l) k := by
  intro l
  induction l with
  | nil => intro s1 s2 _ hg; exact hg
  | cons tc l ih =>
    intro s1 s2 hall hg
    rw [applyEvents_cons, applyEvents_cons]
    exact ih _ _ (fun x hx => hall x (List.mem_cons_of_mem _ hx))
      (get_applyCommand_congr _ _ _ _ _ (hall tc (List.mem_cons_self _ _)) hg)

theorem get_applyEvents_filter (k : List Nat) :
    ∀ (evs : List (Nat × Command)) (s : Store),
      Store.get (Store.applyEvents s evs) k
        = Store.get (Store.applyEvents s (evs.filter fun tc => decide (tc.2.keyOf = k))) k := by
  intro evs
  induction evs with
  | nil => intro s; rfl
  | cons tc evs ih =>
    intro s
    by_cases h : tc.2.keyOf = k
    · have hfil : (tc :: evs).filter (fun tc => decide (tc.2.keyOf = k))
          = tc :: evs.filter (fun tc => decide (tc.2.keyOf = k)) := by
        simp [List.filter_cons, h]
      rw [applyEvents_cons, ih, hfil, applyEvents_cons]
    · have hfil : (tc :: evs).filter (fun tc => decide (tc.2.keyOf = k))
          = evs.filter (fun tc => decide (tc.2.keyOf = k)) := by
        simp [List.filter_cons, h]
      rw [applyEvents_cons, ih, hfil]
      apply get_applyEvents_congr
      · intro x hx
        exact of_decide_eq_true (List.mem_filter.mp hx).2
      · exact get_applyCommand_ne _ _ _ _ h

theorem get_applyEvents_lastSet (k : List Nat) (v : Value) :
    ∀ (l : List (Nat × Command)) (s : Store) (t : Nat) (e : Option Nat),
      l.getLast? = some (t, Command.Set k v e) →
      Store.get (Store.applyEvents s l) k = some v := by
  intro l
  induction l with
  | nil => intro s t e h; cases h
  | cons x xs ih =>
    intro s t e h
    cases xs with
    | nil =>
      have hx : x = (t, Command.Set k v e) := by simpa using h
      rw [hx, applyEvents_cons]
      cases e with
      | none => simp [Store.applyEvents, Store.applyCommand, Store.get, alookup_ainsert_self]
      | some d => simp [Store.applyEvents, Store.applyCommand, Store.get, alookup_ainsert_self]
    | cons y ys =>
      rw [List.getLast?_cons_cons] at h
      rw [applyEvents_cons]
      exact ih _ _ _ h

/-- C8.  The engine consumer is a fold of the published events in
publish order: the value read at any key after applying a published
sequence equals the value after applying, in the same order, just the
events touching that key (one global order restricted to the key); in
particular, when the last published event touching a key is a `Set`,
that event's value is the final stored value. -/
theorem events_applied_in_publish_order (s : Store) (evs : List (Nat × Command)) (k : List Nat) :
    Store.get (Store.applyEvents s evs) k
      = Store.get (Store.applyEvents s (evs.filter fun tc => decide (tc.2.keyOf = k))) k
    ∧ ∀ t v e,
      (evs.filter fun tc => decide (tc.2.keyOf = k)).getLast? = some (t, Command.Set k v e) →
      Store.get (Store.applyEvents s evs) k = some v := by
  refine ⟨get_applyEvents_filter k evs s, ?_⟩
  intro t v e h
  rw [get_applyEvents_filter k evs s]
  exact get_applyEvents_lastSet k v _ _ _ _ h


/-- Witness for C8: the last published `Set` on key `a` wins. -/
theorem events_applied_in_publish_order_witness :
    Store.get (Store.applyEvents emptyStore sampleEvents) (strBytes "a")
      = some (Value.String (strBytes "3")) :=
  (events_applied_in_publish_order emptyStore sampleEvents (strBytes "a")).2
    3 (Value.String (strBytes "3")) none rfl

/-! ## Claim theorems: dispatch (C7, C10) -/

/-- C7.  With a configured password and an unauthenticated session,
dispatching any command whose (extracted) name is not `AUTH` — whatever
its arguments — returns the fixed `NOAUTH` error, leaves the session
unauthenticated, and publishes no mutation event (so both mappings are
untouched: only published events ever reach the engine writer). -/
theorem unauthenticated_rejected (store : Store) (pw : List Nat) (nameF : RespValue)
    (rest : List RespValue) (rawName : List Nat)
    (hname : nameF.to_string = some rawName)
    (hne : upperAscii rawName ≠ strBytes "AUTH") :
    process_command (RespValue.Array (nameF :: rest)) store false (some pw)
      = (RespValue.Error (strBytes "NOAUTH Authentication required."), false, []) := by
  simp [process_command, hname, hne]

/-- Witness for C7: an unauthenticated `GET x` against a store with a
configured password. -/
theorem unauthenticated_rejected_witness :
    process_command
        (RespValue.Array [RespValue.BulkString (strBytes "GET"),
          RespValue.BulkString (strBytes "x")])
        emptyStore false (some (strBytes "pw"))
      = (RespValue.Error (strBytes "NOAUTH Authentication required."), false, []) :=
  unauthenticated_rejected emptyStore (strBytes "pw") _ _ (strBytes "GET") rfl (by decide)


theorem setExpiryOf_eq_none_of_trailingIgnored (extra : List RespValue)
    (h : trailingIgnoredB extra = true) : setExpiryOf extra = none := by
  cases extra with
  | nil => rfl
  | cons t rest =>
    cases ht : t.to_string with
    | none => simp [setExpiryOf, ht]
    | some s =>
      simp only [trailingIgnoredB, ht] at h
      by_cases hpx : upperAscii s = strBytes "PX"
      · rw [if_pos (Or.inl hpx)] at h
        simp only [setExpiryOf, ht, if_pos hpx]
        cases rest with
        | nil => rfl
        | cons u us =>
          cases hu : u.to_string with
          | none => simp [hu]
          | some d =>
            simp only [hu] at h
            cases hp : parseU64 d with
            | none => simp [hu, hp]
            | some n => rw [hp] at h; simp at h
      · by_cases hex : upperAscii s = strBytes "EX"
        · rw [if_pos (Or.inr hex)] at h
          simp only [setExpiryOf, ht, if_neg hpx, if_pos hex]
          cases rest with
          | nil => rfl
          | cons u us =>
            cases hu : u.to_string with
            | none => simp [hu]
            | some d =>
              simp only [hu] at h
              cases hp : parseU64 d with
              | none => simp [hu, hp]
              | some n => rw [hp] at h; simp at h
        · simp [setExpiryOf, ht, hpx, hex]

/-- C10.  A `SET` with key and value never fails on its trailing
tokens: whenever they do not form a valid `PX`/`EX` expiry (next token
absent, unparseable, neither keyword, or its argument missing or not an
unsigned integer), the command still replies `OK` and publishes a `Set`
event with no expiry — which, applied, clears any prior expiry. -/
theorem set_trailing_tokens_ignored (store : Store) (pw : Option (List Nat))
    (nameF keyF valF : RespValue) (extra : List RespValue) (rawName key value : List Nat)
    (hname : nameF.to_string = some rawName)
    (hup : upperAscii rawName = strBytes "SET")
    (hkey : keyF.to_string = some key)
    (hval : valF.to_string = some value)
    (hext : trailingIgnoredB extra = true) :
    process_command (RespValue.Array (nameF :: keyF :: valF :: extra)) store true pw
      = (RespValue.SimpleString (strBytes "OK"), true,
         [Command.Set key (Value.String value) none]) := by
  have hexp := setExpiryOf_eq_none_of_trailingIgnored extra hext
  have hSA : strBytes "SET" ≠ strBytes "AUTH" := by decide
  have hSP : strBytes "SET" ≠ strBytes "PING" := by decide
  have hSG : strBytes "SET" ≠ strBytes "GET" := by decide
  simp [process_command, hname, hup, hkey, hval, hexp, hSA, hSP, hSG]

/-- Witness for C10: `SET k v PX notanumber` replies `OK` and stores
with no expiry. -/
theorem set_trailing_tokens_ignored_witness :
    process_command
        (RespValue.Array [RespValue.BulkString (strBytes "set"),
          RespValue.BulkString (strBytes "k"), RespValue.BulkString (strBytes "v"),
          RespValue.BulkString (strBytes "PX"), RespValue.BulkString (strBytes "notanumber")])
        emptyStore true none
      = (RespValue.SimpleString (strBytes "OK"), true,
         [Command.Set (strBytes "k") (Value.String (strBytes "v")) none]) :=
  set_trailing_tokens_ignored emptyStore none _ _ _ _ (strBytes "set")
    (strBytes "k") (strBytes "v") rfl (by decide) rfl rfl (by decide)

/-! ## Codec round-trip lemmas -/

theorem natDigitsF_ne_nil (fuel n : Nat) (h : n < fuel) : natDigitsF fuel n ≠ [] := by
  cases fuel with
  | zero => omega
  | succ fuel =>
    by_cases h10 : n < 10
    · simp [natDigitsF, h10]
    · simp [natDigitsF, h10]

theorem natDigits_ne_nil (n : Nat) : natDigits n ≠ [] :=
  natDigitsF_ne_nil _ _ (Nat.lt_succ_self n)

theorem isDigit_natDigitsF (fuel : Nat) :
    ∀ n, n < fuel → ∀ b ∈ natDigitsF fuel n, isDigit b = true := by
  induction fuel with
  | zero => intro n h; omega
  | succ fuel ih =>
    intro n h b hb
    by_cases h10 : n < 10
    · simp only [natDigitsF, if_pos h10, List.mem_singleton] at hb
      subst hb
      simp only [isDigit, Bool.and_eq_true, decide_eq_true_eq]
      omega
    · simp only [natDigitsF, if_neg h10] at hb
      rcases List.mem_append.mp hb with h1 | h2
      · exact ih (n / 10) (by omega) b h1
      · simp only [List.mem_singleton] at h2
        subst h2
        simp only [isDigit, Bool.and_eq_true, decide_eq_true_eq]
        omega

theorem isDigit_natDigits (n : Nat) : ∀ b ∈ natDigits n, isDigit b = true :=
  isDigit_natDigitsF _ _ (Nat.lt_succ_self n)

theorem digitsVal_append (l : List Nat) (d : Nat) :
    digitsVal (l ++ [d]) = digitsVal l * 10 + (d - 48) := by
  simp [digitsVal, List.foldl_append]

theorem digitsVal_natDigitsF (fuel : Nat) :
    ∀ n, n < fuel → digitsVal (natDigitsF fuel n) = n := by
  induction fuel with
  | zero => intro n h; omega
  | succ fuel ih =>
    intro n h
    by_cases h10 : n < 10
    · simp only [natDigitsF, if_pos h10]
      simp [digitsVal]
    · simp only [natDigitsF, if_neg h10]
      rw [digitsVal_append, ih (n / 10) (by omega)]
      omega

theorem digitsVal_natDigits (n : Nat) : digitsVal (natDigits n) = n :=
  digitsVal_natDigitsF _ _ (Nat.lt_succ_self n)


theorem takeDigits_append (ds rest : List Nat) (hds : ∀ b ∈ ds, isDigit b = true)
    (hr : headNotDigit rest) : takeDigits (ds ++ rest) = (ds, rest) := by
  induction ds with
  | nil =>
    cases rest with
    | nil => rfl
    | cons b r =>
      simp only [headNotDigit] at hr
      simp [takeDigits, hr]
  | cons d ds ih =>
    have hd : isDigit d = true := hds d (by simp)
    simp [takeDigits, hd, ih (fun b hb => hds b (by simp [hb]))]

theorem i64Pos_natDigits (n : Nat) (rest : List Nat) (hn : n ≤ 2 ^ 63 - 1)
    (hr : headNotDigit rest) : i64Pos (natDigits n ++ rest) = PResult.ok rest (n : Int) := by
  have h1 := takeDigits_append (natDigits n) rest (isDigit_natDigits n) hr
  have hn2 : n ≤ 9223372036854775807 := by omega
  simp [i64Pos, h1, natDigits_ne_nil n, digitsVal_natDigits, hn2]

theorem i64Neg_natDigits (n : Nat) (rest : List Nat) (hn : n ≤ 2 ^ 63)
    (hr : headNotDigit rest) : i64Neg (natDigits n ++ rest) = PResult.ok rest (-(n : Int)) := by
  have h1 := takeDigits_append (natDigits n) rest (isDigit_natDigits n) hr
  have hn2 : n ≤ 9223372036854775808 := by omega
  simp [i64Neg, h1, natDigits_ne_nil n, digitsVal_natDigits, hn2]

theorem i64P_natDigits (n : Nat) (rest : List Nat) (hn : n ≤ 2 ^ 63 - 1)
    (hr : headNotDigit rest) : i64P (natDigits n ++ rest) = PResult.ok rest (n : Int) := by
  obtain ⟨d, ds, hd⟩ : ∃ d ds, natDigits n = d :: ds := by
    cases hnd : natDigits n with
    | nil => exact absurd hnd (natDigits_ne_nil n)
    | cons d ds => exact ⟨d, ds, rfl⟩
  have hdig : isDigit d = true := isDigit_natDigits n d (by rw [hd]; simp)
  simp only [isDigit, Bool.and_eq_true, decide_eq_true_eq] at hdig
  have hcons : natDigits n ++ rest = d :: (ds ++ rest) := by rw [hd]; rfl
  rw [hcons]
  simp only [i64P, if_neg (by omega : ¬ d = 45), if_neg (by omega : ¬ d = 43)]
  rw [← hcons]
  exact i64Pos_natDigits n rest hn hr

theorem i64P_serializeInt (i : Int) (rest : List Nat) (h1 : -(2 ^ 63) ≤ i)
    (h2 : i < 2 ^ 63) (hr : headNotDigit rest) :
    i64P (serializeInt i ++ rest) = PResult.ok rest i := by
  by_cases hi : i < 0
  · have habs : i.natAbs ≤ 2 ^ 63 := by omega
    have hcons : serializeInt i ++ rest = 45 :: (natDigits i.natAbs ++ rest) := by
      simp [serializeInt, hi]
    rw [hcons]
    simp only [i64P, if_pos rfl]
    have hval : -((i.natAbs : Nat) : Int) = i := by omega
    rw [i64Neg_natDigits i.natAbs rest habs hr, hval]
    simp
  · have htn : i.toNat ≤ 2 ^ 63 - 1 := by omega
    have hser : serializeInt i = natDigits i.toNat := by simp [serializeInt, hi]
    have hval : ((i.toNat : Nat) : Int) = i := by omega
    rw [hser, i64P_natDigits i.toNat rest htn hr, hval]

theorem spanNotCRLF_append (s rest : List Nat) (hs : ∀ b ∈ s, b ≠ 13 ∧ b ≠ 10) :
    spanNotCRLF (s ++ 13 :: rest) = (s, 13 :: rest) := by
  induction s with
  | nil => simp [spanNotCRLF]
  | cons b s ih =>
    have hb := hs b (by simp)
    simp [spanNotCRLF, hb.1, hb.2, ih (fun x hx => hs x (by simp [hx]))]

theorem takeP_append (l r : List Nat) : takeP l.length (l ++ r) = PResult.ok r l := by
  unfold takeP
  rw [if_pos (by simp), List.take_left, List.drop_left]

theorem depth_pos (v : RespValue) : 1 ≤ depth v := by
  cases v <;> simp [depth]

mutual

theorem depth_le_serialize : ∀ v : RespValue, depth v ≤ (serialize_resp v).length
  | RespValue.SimpleString s => by simp [depth, serialize_resp]
  | RespValue.Error s => by simp [depth, serialize_resp]
  | RespValue.Integer i => by simp [depth, serialize_resp]
  | RespValue.BulkString bytes => by simp [depth, serialize_resp]
  | RespValue.Array arr => by
    have h := depthList_le_serializeList arr
    simp only [depth, serialize_resp, List.length_cons, List.length_append]
    omega
  | RespValue.Null => by simp [depth, serialize_resp]

theorem depthList_le_serializeList : ∀ vs : List RespValue,
    depthList vs ≤ (serializeList vs).length
  | [] => by simp [depthList, serializeList]
  | v :: vs => by
    have h1 := depth_le_serialize v
    have h2 := depthList_le_serializeList vs
    simp only [depthList, serializeList, List.length_append]
    omega

end

theorem countF_serialize (fuel : Nat)
    (hv : ∀ v rest, wfB v = true → depth v ≤ fuel →
      parseRespF fuel (serialize_resp v ++ rest) = PResult.ok rest v) :
    ∀ (vs : List RespValue) (rest : List Nat), wfListB vs = true → depthList vs ≤ fuel →
      countF (parseRespF fuel) vs.length (serializeList vs ++ rest) = PResult.ok rest vs := by
  intro vs
  induction vs with
  | nil =>
    intro rest h1 h2
    simp [serializeList, countF]
  | cons v vs ih =>
    intro rest h1 h2
    simp only [wfListB, Bool.and_eq_true] at h1
    simp only [depthList, max_le_iff] at h2
    have e1 := hv v (serializeList vs ++ rest) h1.1 h2.1
    have e2 := ih rest h1.2 h2.2
    simp [serializeList, countF, List.append_assoc, e1, e2]

theorem parseRespF_serialize : ∀ (fuel : Nat) (v : RespValue) (rest : List Nat),
    wfB v = true → depth v ≤ fuel →
    parseRespF fuel (serialize_resp v ++ rest) = PResult.ok rest v := by
  intro fuel
  induction fuel with
  | zero =>
    intro v rest h1 h2
    have := depth_pos v
    omega
  | succ fuel ih =>
    intro v rest h1 h2
    cases v with
    | SimpleString s =>
      simp only [wfB, Bool.and_eq_true, decide_eq_true_eq, List.all_eq_true] at h1
      obtain ⟨⟨hne, _⟩, hcrlf⟩ := h1
      have hs2 : ∀ b ∈ s, b ≠ 13 ∧ b ≠ 10 := by
        intro b hb
        have hx := hcrlf b hb
        simp only [Bool.and_eq_true, decide_eq_true_eq] at hx
        exact hx
      have hspan := spanNotCRLF_append s (10 :: rest) hs2
      have heq : serialize_resp (RespValue.SimpleString s) ++ rest
          = 43 :: (s ++ 13 :: 10 :: rest) := by simp [serialize_resp]
      rw [heq]
      simp only [parseRespF]
      simp [parse_simple_string, PResult.orElse, hspan, hne, crlfP]
    | Error s =>
      simp only [wfB, Bool.and_eq_true, decide_eq_true_eq, List.all_eq_true] at h1
      obtain ⟨⟨hne, _⟩, hcrlf⟩ := h1
      have hs2 : ∀ b ∈ s, b ≠ 13 ∧ b ≠ 10 := by
        intro b hb
        have hx := hcrlf b hb
        simp only [Bool.and_eq_true, decide_eq_true_eq] at hx
        exact hx
      have hspan := spanNotCRLF_append s (10 :: rest) hs2
      have heq : serialize_resp (RespValue.Error s) ++ rest
          = 45 :: (s ++ 13 :: 10 :: rest) := by simp [serialize_resp]
      rw [heq]
      simp only [parseRespF]
      simp [parse_simple_string, parse_error, PResult.orElse, hspan, hne, crlfP]
    | Integer i =>
      simp only [wfB, Bool.and_eq_true, decide_eq_true_eq] at h1
      have heq : serialize_resp (RespValue.Integer i) ++ rest
          = 58 :: (serializeInt i ++ 13 :: 10 :: rest) := by simp [serialize_resp]
      rw [heq]
      have hint := i64P_serializeInt i (13 :: 10 :: rest) h1.1 h1.2 (by exact rfl)
      simp only [parseRespF]
      simp [parse_simple_string, parse_error, parse_integer, PResult.orElse, hint, crlfP]
    | BulkString bytes =>
      simp only [wfB, Bool.and_eq_true, decide_eq_true_eq] at h1
      have heq : serialize_resp (RespValue.BulkString bytes) ++ rest
          = 36 :: (natDigits bytes.length ++ 13 :: 10 :: (bytes ++ 13 :: 10 :: rest)) := by
        simp [serialize_resp]
      rw [heq]
      have hint := i64P_natDigits bytes.length (13 :: 10 :: (bytes ++ 13 :: 10 :: rest))
        (by omega) (by exact rfl)
      have hne1 : ((bytes.length : Int)) ≠ -1 := by omega
      have hmod : (((bytes.length : Int)) % (18446744073709551616 : Int)).toNat
          = bytes.length := by omega
      have htake := takeP_append bytes (13 :: 10 :: rest)
      simp only [parseRespF]
      simp [parse_simple_string, parse_error, parse_integer, parse_bulk_string,
        PResult.orElse, hint, crlfP, hne1, hmod, htake]
    | Array arr =>
      simp only [wfB, Bool.and_eq_true, decide_eq_true_eq] at h1
      simp only [depth] at h2
      have hd2 : depthList arr ≤ fuel := by omega
      have heq : serialize_resp (RespValue.Array arr) ++ rest
          = 42 :: (natDigits arr.length ++ 13 :: 10 :: (serializeList arr ++ rest)) := by
        simp [serialize_resp]
      rw [heq]
      have hint := i64P_natDigits arr.length (13 :: 10 :: (serializeList arr ++ rest))
        (by omega) (by exact rfl)
      have hne1 : ((arr.length : Int)) ≠ -1 := by omega
      have hmod : (((arr.length : Int)) % (18446744073709551616 : Int)).toNat
          = arr.length := by omega
      have hcount := countF_serialize fuel ih arr rest h1.1 hd2
      simp only [parseRespF]
      simp [parse_simple_string, parse_error, parse_integer, parse_bulk_string,
        parse_array_with, PResult.orElse, hint, crlfP, hne1, hmod, hcount]
    | Null =>
      have heq : serialize_resp RespValue.Null ++ rest = 36 :: 45 :: 49 :: 13 :: 10 :: rest := by
        simp [serialize_resp]
      rw [heq]
      simp only [parseRespF]
      simp [parse_simple_string, parse_error, parse_integer, parse_bulk_string,
        PResult.orElse, i64P, i64Neg, takeDigits, isDigit, digitsVal, crlfP]

/-! ## Claim theorems: wire codec (C1, C2) -/

/-- C1 (refuting evaluation).  The first 3 bytes of the valid frame
`+OK\r\n` — a strict prefix, i.e. a first chunk of an arbitrary split —
make `parse_resp` return the malformed-failure outcome (nom
`Err::Error`), not the distinct "need more bytes" outcome the claim
requires; the full frame parses fine.  The parsers are built from nom
`complete` combinators, so the `Err::Incomplete` branch of the
connection loop is unreachable and a split frame kills the
connection. -/
theorem incremental_parse_code_bug :
    parse_resp (strBytes "+OK") = PResult.err
    ∧ parse_resp (strBytes "+OK" ++ [13, 10])
      = PResult.ok [] (RespValue.SimpleString (strBytes "OK"))
    ∧ (PResult.err : PResult RespValue) ≠ PResult.incomplete :=
  ⟨rfl, rfl, fun h => nomatch h⟩

/-- C2 (amended).  Decode is a left inverse of encode for every
representable frame whose simple-string and error payloads are, at
every nesting level, nonempty and free of CR/LF bytes (`wfB`); this
covers all five frame kinds, nested arrays, and the null collapse
(`Null` encodes as the bulk-null form `$-1\r\n` and decodes back to
`Null`). -/
theorem resp_roundtrip (v : RespValue) (h : wfB v = true) :
    parse_resp (serialize_resp v) = PResult.ok [] v := by
  have hd : depth v ≤ (serialize_resp v).length + 1 := by
    have := depth_le_serialize v
    omega
  have hmain := parseRespF_serialize ((serialize_resp v).length + 1) v [] h hd
  rw [List.append_nil] at hmain
  exact hmain


/-- Witness for C2: the nested sample frame round-trips. -/
theorem resp_roundtrip_witness :
    wfB sampleFrame = true
    ∧ parse_resp (serialize_resp sampleFrame) = PResult.ok [] sampleFrame :=
  ⟨rfl, resp_roundtrip sampleFrame rfl⟩

/-- Counterexample to C2 as stated: the empty simple string is a
representable frame value, but its encoding `+\r\n` fails to decode
(`is_not("\r\n")` requires a nonempty run), so
`decode(encode(v)) = v` does not hold for it. -/
theorem resp_roundtrip_cex :
    parse_resp (serialize_resp (RespValue.SimpleString []))
      ≠ PResult.ok [] (RespValue.SimpleString []) :=
  fun h => nomatch h
